import Mathlib

/-
  Verification of the IPFS metadata-resolution subsystem of the
  zora-subgraph repository.

  Shallow embedding of:
    - src/src/ipfs-handler.ts        (extractIPFSHash, buildIPFSURL)
    - src/src/ipfs-file-handler.ts   (handlePostMetadata)
    - src/src/mapping.ts             (processIPFSURI)
    - src/unnamed/part_002           (IPFSContent.parseMetadata, cleanJsonString)

  AssemblyScript strings are modelled as lists of characters.  The external
  graph-ts JSON library ("json.fromBytes" / "json.fromString") is modelled by an
  executable recursive-descent JSON parser; unparseable input is modelled as a
  result whose kind is not OBJECT, matching the fallback branches of the source
  ("If JSON parsing fails, store raw content").  "JSONValue.toString" is
  modelled as a total serializer.  Entity storage ("load" / "save") is modelled
  as an association list keyed by entity id, and log.warning calls are recorded
  in a warning list so that "reported" behaviour is observable.
-/

namespace ZoraSubgraph

/-- AssemblyScript string, as a list of characters. -/
abbrev Str := List Char

/-- Character list of a Lean string literal. -/
def str (s : String) : Str := s.data

/-- The opening brace character. -/
def openBrace : Char := Char.ofNat 123

/-- The closing brace character. -/
def closeBrace : Char := Char.ofNat 125

/-- The double-quote character. -/
def quoteChar : Char := Char.ofNat 34

/-- The backslash character. -/
def backslashChar : Char := Char.ofNat 92

/-- AssemblyScript String.startsWith. -/
def strStartsWith (s p : Str) : Bool := p.isPrefixOf s

/-- Split a string at the first occurrence of a pattern: returns the part
before the occurrence and the part after it, or none when the pattern does
not occur. -/
def splitFirst (pat : Str) : Str → Option (Str × Str)
  | [] => if strStartsWith [] pat then some ([], []) else none
  | c :: rest =>
    if strStartsWith (c :: rest) pat then some ([], (c :: rest).drop pat.length)
    else
      match splitFirst pat rest with
      | some (pre, post) => some (c :: pre, post)
      | none => none

/-- AssemblyScript String.includes. -/
def includes (s sub : Str) : Bool := (splitFirst sub s).isSome

/-- AssemblyScript String.replace: replaces the first occurrence only. -/
def replaceFirst (s pat rep : Str) : Str :=
  match splitFirst pat s with
  | some (pre, post) => pre ++ rep ++ post
  | none => s

/-- Fuelled worker for splitting on every occurrence of a separator. -/
def splitOnSub (sep : Str) : Nat → Str → List Str
  | 0, s => [s]
  | Nat.succ fuel, s =>
    match splitFirst sep s with
    | some (pre, post) => pre :: splitOnSub sep fuel post
    | none => [s]

/-- AssemblyScript String.split with a (non-empty) string separator. -/
def splitStr (sep s : Str) : List Str := splitOnSub sep (s.length + 1) s

/-- Index of the last occurrence of a character, counting from the head. -/
def lastIndexOfAux (c : Char) : Str → Option Nat
  | [] => none
  | x :: rest =>
    match lastIndexOfAux c rest with
    | some i => some (i + 1)
    | none => if x = c then some 0 else none

/-- AssemblyScript String.lastIndexOf for a single character: the index of the
last occurrence, or -1 when the character does not occur. -/
def lastIndexOfChar (c : Char) (s : Str) : Int :=
  match lastIndexOfAux c s with
  | some i => (i : Int)
  | none => -1

/-- src/src/ipfs-handler.ts, extractIPFSHash (lines 6-17): strips the
"ipfs://" scheme, or takes the path component after "/ipfs/" in an
https gateway URL, and otherwise returns the empty string. -/
def extractIPFSHash (uri : Str) : Str :=
  if strStartsWith uri (str ("ipfs://")) then replaceFirst uri (str ("ipfs://")) []
  else if strStartsWith uri (str ("https://")) && includes uri (str ("/ipfs/")) then
    let parts := splitStr (str ("/ipfs/")) uri
    if parts.length > 1 then (splitStr (str ("/")) (parts.getD 1 [])).headD []
    else []
  else []

/-- src/src/ipfs-handler.ts, the IPFS_GATEWAYS constant (lines 21-26). -/
def IPFS_GATEWAYS : List Str :=
  [str ("https://ipfs.io/ipfs/"),
   str ("https://gateway.pinata.cloud/ipfs/"),
   str ("https://cloudflare-ipfs.com/ipfs/"),
   str ("https://dweb.link/ipfs/")]

/-- src/src/ipfs-handler.ts, buildIPFSURL (lines 20-32).  The index is an
i32; the source resets it to 0 only when it is at or above the list length,
and then performs a bounds-checked array access, so a negative index traps.
The trap is modelled as none. -/
def buildIPFSURL (hash : Str) (gatewayIndex : Int) : Option Str :=
  let gi : Int :=
    if (IPFS_GATEWAYS.length : Int) ≤ gatewayIndex then 0 else gatewayIndex
  match gi with
  | Int.ofNat n => (IPFS_GATEWAYS.get? n).map (fun g => g ++ hash)
  | Int.negSucc _ => none

/-- graph-ts JSONValue: the parse result of the external JSON library. -/
inductive JSONValue where
  | jnull
  | jbool (b : Bool)
  | jnum (lit : Str)
  | jstr (s : Str)
  | jarr (xs : List JSONValue)
  | jobj (fields : List (Str × JSONValue))

/-- A parsed JSON object, as its list of key/value entries. -/
abbrev Obj := List (Str × JSONValue)

/-- graph-ts TypedMap.set: replace the entry with an equal key, else append. -/
def mapSet (entries : Obj) (key : Str) (v : JSONValue) : Obj :=
  match entries with
  | [] => [(key, v)]
  | e :: rest => if e.1 = key then (key, v) :: rest else e :: mapSet rest key v

/-- graph-ts TypedMap.get: the value of the first entry with an equal key. -/
def objGet (fields : Obj) (key : Str) : Option JSONValue :=
  match fields with
  | [] => none
  | e :: rest => if e.1 = key then some e.2 else objGet rest key

/-- Skip JSON whitespace. -/
def skipWs : Str → Str
  | [] => []
  | c :: rest =>
    if c = ' ' ∨ c = Char.ofNat 9 ∨ c = Char.ofNat 10 ∨ c = Char.ofNat 13 then skipWs rest
    else c :: rest

/-- Hexadecimal digit value. -/
def hexVal (c : Char) : Option Nat :=
  if 48 ≤ c.toNat ∧ c.toNat ≤ 57 then some (c.toNat - 48)
  else if 97 ≤ c.toNat ∧ c.toNat ≤ 102 then some (c.toNat - 87)
  else if 65 ≤ c.toNat ∧ c.toNat ≤ 70 then some (c.toNat - 55)
  else none

/-- Parse the body of a JSON string literal (after the opening quote),
returning the decoded characters and the rest of the input after the
closing quote. -/
def parseStringBody : Str → Option (Str × Str)
  | [] => none
  | c :: rest =>
    if c = quoteChar then some ([], rest)
    else if c = backslashChar then
      match rest with
      | [] => none
      | e :: rest2 =>
        if e = quoteChar ∨ e = backslashChar ∨ e = Char.ofNat 47 then
          match parseStringBody rest2 with
          | some (s, rem) => some (e :: s, rem)
          | none => none
        else if e = Char.ofNat 110 then
          match parseStringBody rest2 with
          | some (s, rem) => some (Char.ofNat 10 :: s, rem)
          | none => none
        else if e = Char.ofNat 116 then
          match parseStringBody rest2 with
          | some (s, rem) => some (Char.ofNat 9 :: s, rem)
          | none => none
        else if e = Char.ofNat 114 then
          match parseStringBody rest2 with
          | some (s, rem) => some (Char.ofNat 13 :: s, rem)
          | none => none
        else if e = Char.ofNat 98 then
          match parseStringBody rest2 with
          | some (s, rem) => some (Char.ofNat 8 :: s, rem)
          | none => none
        else if e = Char.ofNat 102 then
          match parseStringBody rest2 with
          | some (s, rem) => some (Char.ofNat 12 :: s, rem)
          | none => none
        else if e = Char.ofNat 117 then
          match rest2 with
          | h1 :: h2 :: h3 :: h4 :: rest3 =>
            match hexVal h1, hexVal h2, hexVal h3, hexVal h4 with
            | some a, some b, some cc, some d =>
              match parseStringBody rest3 with
              | some (s, rem) =>
                some (Char.ofNat (((a * 16 + b) * 16 + cc) * 16 + d) :: s, rem)
              | none => none
            | _, _, _, _ => none
          | _ => none
        else none
    else
      match parseStringBody rest with
      | some (s, rem) => some (c :: s, rem)
      | none => none

/-- Is this character part of a JSON number lexeme? -/
def isNumChar (c : Char) : Bool :=
  (48 ≤ c.toNat ∧ c.toNat ≤ 57) ∨ c = '+' ∨ c = '-' ∨ c = '.' ∨ c = 'e' ∨ c = 'E'

mutual

/-- Parse one JSON value, returning it and the remaining input. -/
def parseVal (fuel : Nat) (s : Str) : Option (JSONValue × Str) :=
  match fuel with
  | 0 => none
  | Nat.succ f =>
    match skipWs s with
    | [] => none
    | c :: rest =>
      if c = openBrace then
        match skipWs rest with
        | c2 :: r2 => if c2 = closeBrace then some (JSONValue.jobj [], r2)
                      else parseObjRest f rest []
        | [] => none
      else if c = Char.ofNat 91 then
        match skipWs rest with
        | c2 :: r2 => if c2 = Char.ofNat 93 then some (JSONValue.jarr [], r2)
                      else parseArrRest f rest []
        | [] => none
      else if c = quoteChar then
        match parseStringBody rest with
        | some (lit, rem) => some (JSONValue.jstr lit, rem)
        | none => none
      else if strStartsWith (c :: rest) (str ("true")) then
        some (JSONValue.jbool true, (c :: rest).drop 4)
      else if strStartsWith (c :: rest) (str ("false")) then
        some (JSONValue.jbool false, (c :: rest).drop 5)
      else if strStartsWith (c :: rest) (str ("null")) then
        some (JSONValue.jnull, (c :: rest).drop 4)
      else if (48 ≤ c.toNat ∧ c.toNat ≤ 57) ∨ c = '-' then
        let lex := (c :: rest).takeWhile isNumChar
        some (JSONValue.jnum lex, (c :: rest).dropWhile isNumChar)
      else none

/-- Parse the members of a JSON object after its opening brace. -/
def parseObjRest (fuel : Nat) (s : Str) (acc : Obj) : Option (JSONValue × Str) :=
  match fuel with
  | 0 => none
  | Nat.succ f =>
    match skipWs s with
    | [] => none
    | c :: rest =>
      if c = quoteChar then
        match parseStringBody rest with
        | some (key, rem) =>
          match skipWs rem with
          | c2 :: rem2 =>
            if c2 = ':' then
              match parseVal f rem2 with
              | some (v, rem3) =>
                let acc2 := mapSet acc key v
                match skipWs rem3 with
                | c3 :: rem4 =>
                  if c3 = ',' then parseObjRest f rem4 acc2
                  else if c3 = closeBrace then some (JSONValue.jobj acc2, rem4)
                  else none
                | [] => none
              | none => none
            else none
          | [] => none
        | none => none
      else none

/-- Parse the elements of a JSON array after its opening bracket. -/
def parseArrRest (fuel : Nat) (s : Str) (acc : List JSONValue) : Option (JSONValue × Str) :=
  match fuel with
  | 0 => none
  | Nat.succ f =>
    match parseVal f s with
    | some (v, rem) =>
      match skipWs rem with
      | c :: rem2 =>
        if c = ',' then parseArrRest f rem2 (acc ++ [v])
        else if c = Char.ofNat 93 then some (JSONValue.jarr (acc ++ [v]), rem2)
        else none
      | [] => none
    | none => none

end

/-- The external JSON library entry point ("json.fromString" /
"json.fromBytes"): parse a complete JSON document.  Input that does not
parse — including trailing garbage — yields none, which the handlers below
observe as a value whose kind is not OBJECT. -/
def parseJson (s : Str) : Option JSONValue :=
  match parseVal (s.length + 1) s with
  | some (v, rem) => if (skipWs rem).isEmpty then some v else none
  | none => none

mutual

/-- graph-ts JSONValue.toString, modelled as a total serializer. -/
def jsonToString : JSONValue → Str
  | JSONValue.jnull => str ("null")
  | JSONValue.jbool true => str ("true")
  | JSONValue.jbool false => str ("false")
  | JSONValue.jnum lit => lit
  | JSONValue.jstr s => s
  | JSONValue.jarr xs => Char.ofNat 91 :: (jsonToStringList xs ++ [Char.ofNat 93])
  | JSONValue.jobj fs => openBrace :: (jsonToStringFields fs ++ [closeBrace])

/-- Serialize array elements, comma separated. -/
def jsonToStringList : List JSONValue → Str
  | [] => []
  | x :: rest =>
    match rest with
    | [] => jsonToString x
    | _ :: _ => jsonToString x ++ ',' :: jsonToStringList rest

/-- Serialize object members, comma separated. -/
def jsonToStringFields : List (Str × JSONValue) → Str
  | [] => []
  | (k, v) :: rest =>
    match rest with
    | [] => quoteChar :: k ++ quoteChar :: ':' :: jsonToString v
    | _ :: _ =>
      (quoteChar :: k ++ quoteChar :: ':' :: jsonToString v) ++ ',' :: jsonToStringFields rest

end

/-- The PostMetadata entity of generated/schema, with the fields written by
src/src/ipfs-file-handler.ts.  Unset fields are none. -/
structure PostMetadata where
  id : Str
  description : Option Str := none
  image : Option Str := none
  externalUrl : Option Str := none
  content : Option Str := none
  attributes : Option Str := none
  contentType : Option Str := none
  metadata : Option Str := none
deriving DecidableEq

/-- A freshly constructed PostMetadata entity ("new PostMetadata(cid)"). -/
def newPM (cid : Str) : PostMetadata := { id := cid }

/-- ipfs-file-handler.ts lines 47-51: set description only when the value is
a JSON string, else keep it unchanged. -/
def setDescription (m : PostMetadata) (fields : Obj) : PostMetadata :=
  { m with description :=
      match objGet fields (str ("description")) with
      | some (JSONValue.jstr s) => some s
      | _ => m.description }

/-- ipfs-file-handler.ts lines 53-57: set image only when the value is a
JSON string. -/
def setImage (m : PostMetadata) (fields : Obj) : PostMetadata :=
  { m with image :=
      match objGet fields (str ("image")) with
      | some (JSONValue.jstr s) => some s
      | _ => m.image }

/-- ipfs-file-handler.ts lines 59-63: set externalUrl only when the value of
"external_url" is a JSON string. -/
def setExternalUrl (m : PostMetadata) (fields : Obj) : PostMetadata :=
  { m with externalUrl :=
      match objGet fields (str ("external_url")) with
      | some (JSONValue.jstr s) => some s
      | _ => m.externalUrl }

/-- ipfs-file-handler.ts lines 65-80: set content when the value is a JSON
string, or when it is an object carrying a string "uri" member. -/
def setContent (m : PostMetadata) (fields : Obj) : PostMetadata :=
  { m with content :=
      match objGet fields (str ("content")) with
      | some (JSONValue.jstr s) => some s
      | some (JSONValue.jobj co) =>
        match objGet co (str ("uri")) with
        | some (JSONValue.jstr u) => some u
        | _ => m.content
      | _ => m.content }

/-- ipfs-file-handler.ts lines 82-86: set attributes only when the value is
a JSON array (stored in its string form). -/
def setAttributes (m : PostMetadata) (fields : Obj) : PostMetadata :=
  { m with attributes :=
      match objGet fields (str ("attributes")) with
      | some (JSONValue.jarr xs) => some (jsonToString (JSONValue.jarr xs))
      | _ => m.attributes }

/-- ipfs-file-handler.ts lines 44-86: the extraction performed on a parsed
JSON object: record the content type and the raw payload, then extract the
kind-guarded fields in source order. -/
def handlerExtract (m : PostMetadata) (fields : Obj) (raw : Str) : PostMetadata :=
  setAttributes
    (setContent
      (setExternalUrl
        (setImage
          (setDescription
            { m with contentType := some (str ("application/json")), metadata := some raw }
            fields)
          fields)
        fields)
      fields)
    fields

/-- ipfs-file-handler.ts lines 36-95: the entity built for a CID from the
fetched bytes — the JSON branch extracts fields, the non-JSON branch stores
the literal payload as content with content type text/plain. -/
def buildRecord (cid content : Str) : PostMetadata :=
  match parseJson content with
  | some (JSONValue.jobj fields) => handlerExtract (newPM cid) fields content
  | _ => { newPM cid with contentType := some (str ("text/plain")), content := some content }

/-- The entity store, as an association list keyed by entity id. -/
abbrev Store := List (Str × PostMetadata)

/-- PostMetadata.load. -/
def loadPM : Store → Str → Option PostMetadata
  | [], _ => none
  | e :: rest, cid => if e.1 = cid then some e.2 else loadPM rest cid

/-- PostMetadata.save: replace the entry with this id, else append. -/
def savePM : Store → PostMetadata → Store
  | [], m => [(m.id, m)]
  | e :: rest, m => if e.1 = m.id then (m.id, m) :: rest else e :: savePM rest m

/-- How many persisted entries a store holds for one id. -/
def countKey : Store → Str → Nat
  | [], _ => 0
  | e :: rest, cid => (if e.1 = cid then 1 else 0) + countKey rest cid

/-- Observable system state: the PostMetadata store, the spawned file data
source triggers, and the warnings logged so far. -/
structure Sys where
  store : Store
  triggers : List Str
  warnings : List Str
deriving DecidableEq

/-- The initial system state. -/
def emptySys : Sys := { store := [], triggers := [], warnings := [] }

/-- src/src/ipfs-file-handler.ts, handlePostMetadata (lines 16-110): the
fetch-completion path.  Load first and return when the entity exists; else
build the entity from the bytes, re-check existence right before save, and
save.  Warnings are recorded for the duplicate-skip and non-JSON branches. -/
def handlePostMetadata (cid content : Str) (sys : Sys) : Sys :=
  match loadPM sys.store cid with
  | some _ =>
    { sys with warnings := sys.warnings ++ [str ("PostMetadata already exists - skipping")] }
  | none =>
    let m := buildRecord cid content
    let ws :=
      match parseJson content with
      | some (JSONValue.jobj _) => sys.warnings
      | _ => sys.warnings ++ [str ("IPFS content is not JSON")]
    match loadPM sys.store cid with
    | some _ =>
      { sys with warnings := ws ++ [str ("PostMetadata already exists - skipping save")] }
    | none => { sys with store := savePM sys.store m, warnings := ws }

/-- The Post entity fields written by processIPFSURI. -/
structure Post where
  id : Str
  ipfsHash : Option Str := none
  ipfsGatewayURL : Option Str := none
  metadata : Option Str := none
deriving DecidableEq

/-- src/src/mapping.ts, processIPFSURI (lines 50-80): the producer path.
When the URI resolves to an empty hash, log a warning and return; otherwise
link the post to the hash and spawn the (platform-deduplicated) file data
source trigger.  No PostMetadata entity is touched on this path. -/
def processIPFSURI (post : Post) (contentURI : Str) (sys : Sys) : Post × Sys :=
  let hash := extractIPFSHash contentURI
  if hash.isEmpty then
    (post, { sys with warnings := sys.warnings ++ [str ("Invalid IPFS URI for post")] })
  else
    ({ post with ipfsHash := some hash,
                 ipfsGatewayURL := buildIPFSURL hash 0,
                 metadata := some hash },
     { sys with triggers := sys.triggers ++ [hash] })

/-- One cache operation: a producer-path ensure (processIPFSURI) or a
fetch-completion populate (handlePostMetadata). -/
inductive Op where
  | ensure (postId : Str) (uri : Str)
  | populate (cid : Str) (content : Str)
deriving DecidableEq

/-- Apply one operation to the system state. -/
def step (sys : Sys) (op : Op) : Sys :=
  match op with
  | Op.ensure pid uri => (processIPFSURI { id := pid } uri sys).2
  | Op.populate cid content => handlePostMetadata cid content sys

/-- Run a sequence of operations. -/
def run (sys : Sys) (ops : List Op) : Sys := ops.foldl step sys

/-- The lifecycle states of the resolution record in the specification. -/
inductive Lifecycle where
  | ABSENT
  | SHELL
  | POPULATED
deriving DecidableEq

/-- Numeric rank of a lifecycle state (ABSENT < SHELL < POPULATED). -/
def lifecycleRank : Lifecycle → Nat
  | Lifecycle.ABSENT => 0
  | Lifecycle.SHELL => 1
  | Lifecycle.POPULATED => 2

/-- Lifecycle observed in the store: a missing entity is ABSENT, a persisted
entity without a content type is an unpopulated SHELL, and a persisted entity
with a content type is POPULATED. -/
def lifecycleOf (store : Store) (cid : Str) : Lifecycle :=
  match loadPM store cid with
  | none => Lifecycle.ABSENT
  | some m => if m.contentType = none then Lifecycle.SHELL else Lifecycle.POPULATED

/-- src/unnamed/part_002: the IPFSContent structure (lines 73-88).  The
constructor leaves metadata and contentType null and parsedData empty. -/
structure IPFSContent where
  hash : Str
  originalURI : Str
  gatewayURL : Str
  metadata : Option Str := none
  contentType : Option Str := none
  parsedData : List (Str × Str) := []
deriving DecidableEq

/-- AssemblyScript Map.set on the parsedData map: replace or append. -/
def mapSetStr (entries : List (Str × Str)) (key v : Str) : List (Str × Str) :=
  match entries with
  | [] => [(key, v)]
  | e :: rest => if e.1 = key then (key, v) :: rest else e :: mapSetStr rest key v

/-- AssemblyScript Map.get on the parsedData map. -/
def lookupStr : List (Str × Str) → Str → Option Str
  | [], _ => none
  | e :: rest, k => if e.1 = k then some e.2 else lookupStr rest k

/-- part_002 lines 149-153: truncate at the last closing brace when one
occurs past the first character, else leave the string unchanged. -/
def truncateLastBrace (s : Str) : Str :=
  if lastIndexOfChar closeBrace s > 0 then s.take ((lastIndexOfChar closeBrace s).toNat + 1)
  else s

/-- src/unnamed/part_002, IPFSContent.cleanJsonString (lines 144-161): the
bounded repair.  Truncate at the last closing brace; when the result is
shorter than two characters or does not begin with an opening brace, give up
and return the empty-object string. -/
def cleanJsonString (jsonString : Str) : Str :=
  if (truncateLastBrace jsonString).length < 2
     ∨ (truncateLastBrace jsonString).headD ' ' ≠ openBrace then [openBrace, closeBrace]
  else truncateLastBrace jsonString

/-- part_002 lines 102-124: the repeated string-field extraction block — set
the parsedData entry for a key only when the value is a JSON string. -/
def extractStringField (c : IPFSContent) (fields : Obj) (key : Str) : IPFSContent :=
  match objGet fields key with
  | some (JSONValue.jstr s) => { c with parsedData := mapSetStr c.parsedData key s }
  | _ => c

/-- part_002 lines 126-130: the attributes extraction — set the entry only
when the value is a JSON array, stored in its string form. -/
def extractAttributesField (c : IPFSContent) (fields : Obj) : IPFSContent :=
  match objGet fields (str ("attributes")) with
  | some (JSONValue.jarr xs) =>
    { c with parsedData := mapSetStr c.parsedData (str ("attributes"))
                             (jsonToString (JSONValue.jarr xs)) }
  | _ => c

/-- src/unnamed/part_002, IPFSContent.parseMetadata (lines 91-141): clean the
input, parse it, and on an object extract the known fields; otherwise store
the literal input as the raw payload with content type text/plain and report
failure. -/
def parseMetadata (c : IPFSContent) (jsonString : Str) : IPFSContent × Bool :=
  match parseJson (cleanJsonString jsonString) with
  | some (JSONValue.jobj fields) =>
    (extractAttributesField
      (extractStringField
        (extractStringField
          (extractStringField
            (extractStringField
              { c with metadata := some (cleanJsonString jsonString),
                       contentType := some (str ("application/json")) }
              fields (str ("name")))
            fields (str ("description")))
          fields (str ("image")))
        fields (str ("external_url")))
      fields, true)
  | _ =>
    ({ c with metadata := some jsonString, contentType := some (str ("text/plain")) }, false)

/-- A fresh IPFSContent as built by parseIPFSContent (part_002 line 45). -/
def freshIPFSContent (hash originalURI gatewayURL : Str) : IPFSContent :=
  { hash := hash, originalURI := originalURI, gatewayURL := gatewayURL }

/-! Helper lemmas -/

theorem processIPFSURI_store (post : Post) (uri : Str) (sys : Sys) :
    ((processIPFSURI post uri sys).2).store = sys.store := by
  unfold processIPFSURI
  by_cases h : (extractIPFSHash uri).isEmpty <;> simp [h]

theorem processIPFSURI_invalid (post : Post) (uri : Str) (sys : Sys)
    (h : extractIPFSHash uri = []) :
    processIPFSURI post uri sys
      = (post, { sys with warnings := sys.warnings ++ [str ("Invalid IPFS URI for post")] }) := by
  unfold processIPFSURI
  simp [h]

theorem buildRecord_id (cid content : Str) : (buildRecord cid content).id = cid := by
  unfold buildRecord
  cases h : parseJson content with
  | none => rfl
  | some v => cases v <;> rfl

theorem loadPM_savePM (store : Store) (m : PostMetadata) (k : Str) :
    loadPM (savePM store m) k = if m.id = k then some m else loadPM store k := by
  induction store with
  | nil => simp [savePM, loadPM]
  | cons e rest ih =>
    by_cases h1 : e.1 = m.id
    · simp only [savePM, if_pos h1, loadPM]
      by_cases h2 : m.id = k
      · simp [h2]
      · rw [if_neg h2, if_neg h2, if_neg (fun hk => h2 (h1.symm.trans hk))]
    · simp only [savePM, if_neg h1, loadPM]
      by_cases h3 : e.1 = k
      · rw [if_pos h3, if_neg (fun hk => h1 (h3.trans hk.symm)), if_pos h3]
      · rw [if_neg h3, if_neg h3, ih]

theorem loadPM_none_countKey (store : Store) (k : Str) (h : loadPM store k = none) :
    countKey store k = 0 := by
  induction store with
  | nil => rfl
  | cons e rest ih =>
    by_cases h1 : e.1 = k
    · rw [loadPM, if_pos h1] at h
      exact absurd h (by simp)
    · rw [loadPM, if_neg h1] at h
      simp [countKey, h1, ih h]

theorem loadPM_some_countKey (store : Store) (k : Str) (m : PostMetadata)
    (h : loadPM store k = some m) : 1 ≤ countKey store k := by
  induction store with
  | nil => exact absurd h (by simp [loadPM])
  | cons e rest ih =>
    by_cases h1 : e.1 = k
    · simp [countKey, h1]
    · rw [loadPM, if_neg h1] at h
      have := ih h
      simp only [countKey, if_neg h1]
      omega

theorem countKey_savePM_fresh (store : Store) (m : PostMetadata) (k : Str)
    (h : loadPM store m.id = none) :
    countKey (savePM store m) k = countKey store k + (if m.id = k then 1 else 0) := by
  induction store with
  | nil => simp [savePM, countKey]
  | cons e rest ih =>
    by_cases h1 : e.1 = m.id
    · rw [loadPM, if_pos h1] at h
      exact absurd h (by simp)
    · rw [loadPM, if_neg h1] at h
      simp only [savePM, if_neg h1, countKey, ih h]
      omega

theorem handlePM_store (cid content : Str) (sys : Sys) :
    (handlePostMetadata cid content sys).store
      = match loadPM sys.store cid with
        | some _ => sys.store
        | none => savePM sys.store (buildRecord cid content) := by
  unfold handlePostMetadata
  cases h : loadPM sys.store cid <;> simp [h]

theorem handlePM_new_json_warnings (cid content : Str) (sys : Sys) (fields : Obj)
    (h0 : loadPM sys.store cid = none)
    (hp : parseJson content = some (JSONValue.jobj fields)) :
    (handlePostMetadata cid content sys).warnings = sys.warnings := by
  unfold handlePostMetadata
  simp [h0, hp]

theorem handlePM_creates (cid content : Str) (sys : Sys) :
    ∃ r, loadPM (handlePostMetadata cid content sys).store cid = some r := by
  rw [handlePM_store]
  cases h : loadPM sys.store cid with
  | some r => exact ⟨r, h⟩
  | none =>
    refine ⟨buildRecord cid content, ?_⟩
    rw [loadPM_savePM, buildRecord_id, if_pos rfl]

theorem loadPM_step_preserve (sys : Sys) (op : Op) (cid : Str) (m : PostMetadata)
    (h : loadPM sys.store cid = some m) :
    loadPM (step sys op).store cid = some m := by
  cases op with
  | ensure pid uri =>
    show loadPM ((processIPFSURI { id := pid } uri sys).2).store cid = some m
    rw [processIPFSURI_store]
    exact h
  | populate cid0 content =>
    show loadPM (handlePostMetadata cid0 content sys).store cid = some m
    rw [handlePM_store]
    cases h0 : loadPM sys.store cid0 with
    | some _ => exact h
    | none =>
      rw [loadPM_savePM, buildRecord_id,
          if_neg (fun e => by rw [← e] at h; rw [h] at h0; exact Option.noConfusion h0)]
      exact h

theorem loadPM_run_preserve (ops : List Op) (sys : Sys) (cid : Str) (m : PostMetadata)
    (h : loadPM sys.store cid = some m) :
    loadPM (run sys ops).store cid = some m := by
  induction ops generalizing sys with
  | nil => exact h
  | cons op rest ih => exact ih (step sys op) (loadPM_step_preserve sys op cid m h)

theorem countKey_step_le (sys : Sys) (op : Op) (cid : Str)
    (h : countKey sys.store cid ≤ 1) :
    countKey (step sys op).store cid ≤ 1 := by
  cases op with
  | ensure pid uri =>
    show countKey ((processIPFSURI { id := pid } uri sys).2).store cid ≤ 1
    rw [processIPFSURI_store]
    exact h
  | populate cid0 content =>
    show countKey (handlePostMetadata cid0 content sys).store cid ≤ 1
    rw [handlePM_store]
    cases h0 : loadPM sys.store cid0 with
    | some _ => exact h
    | none =>
      rw [countKey_savePM_fresh sys.store (buildRecord cid0 content) cid
            (by rw [buildRecord_id]; exact h0)]
      rw [buildRecord_id]
      by_cases he : cid0 = cid
      · have h00 : loadPM sys.store cid = none := by rw [← he]; exact h0
        rw [if_pos he, loadPM_none_countKey sys.store cid h00]
      · rw [if_neg he]
        omega

theorem countKey_run_le (ops : List Op) (sys : Sys) (cid : Str)
    (h : countKey sys.store cid ≤ 1) :
    countKey (run sys ops).store cid ≤ 1 := by
  induction ops generalizing sys with
  | nil => exact h
  | cons op rest ih => exact ih (step sys op) (countKey_step_le sys op cid h)

theorem run_populate_mem_presence (ops : List Op) (sys : Sys) (cid content : Str)
    (h : Op.populate cid content ∈ ops) :
    ∃ m, loadPM (run sys ops).store cid = some m := by
  induction ops generalizing sys with
  | nil => exact absurd h (List.not_mem_nil _)
  | cons op rest ih =>
    rcases List.mem_cons.mp h with he | hr
    · obtain ⟨r, hr0⟩ := handlePM_creates cid content sys
      refine ⟨r, loadPM_run_preserve rest (step sys op) cid r ?_⟩
      rw [← he]
      exact hr0
    · exact ih (step sys op) hr

/-- Lookup after a map set: the set key reads back the new value, other keys
are unchanged. -/
theorem lookupStr_mapSetStr (l : List (Str × Str)) (k v k' : Str) :
    lookupStr (mapSetStr l k v) k' = if k = k' then some v else lookupStr l k' := by
  induction l with
  | nil => simp [mapSetStr, lookupStr]
  | cons e rest ih =>
    by_cases h1 : e.1 = k
    · simp only [mapSetStr, if_pos h1, lookupStr]
      by_cases h2 : k = k'
      · simp [h2]
      · rw [if_neg h2, if_neg h2, if_neg (fun hk => h2 (h1.symm.trans hk))]
    · simp only [mapSetStr, if_neg h1, lookupStr]
      by_cases h3 : e.1 = k'
      · rw [if_pos h3, if_neg (fun hk => h1 (h3.trans hk.symm)), if_pos h3]
      · rw [if_neg h3, if_neg h3, ih]

theorem lookup_extractStringField_ne (c : IPFSContent) (fields : Obj) (key k' : Str)
    (hne : key ≠ k') :
    lookupStr (extractStringField c fields key).parsedData k' = lookupStr c.parsedData k' := by
  unfold extractStringField
  cases h : objGet fields key with
  | none => rfl
  | some v => cases v <;> simp [lookupStr_mapSetStr, hne]

theorem lookup_extractStringField_eq (c : IPFSContent) (fields : Obj) (key : Str) :
    lookupStr (extractStringField c fields key).parsedData key
      = (match objGet fields key with
         | some (JSONValue.jstr s) => some s
         | _ => lookupStr c.parsedData key) := by
  unfold extractStringField
  cases h : objGet fields key with
  | none => rfl
  | some v => cases v <;> simp [lookupStr_mapSetStr]

theorem lookup_extractAttributesField_ne (c : IPFSContent) (fields : Obj) (k' : Str)
    (hne : str ("attributes") ≠ k') :
    lookupStr (extractAttributesField c fields).parsedData k' = lookupStr c.parsedData k' := by
  unfold extractAttributesField
  cases h : objGet fields (str ("attributes")) with
  | none => rfl
  | some v => cases v <;> simp [lookupStr_mapSetStr, hne]

/-- The last-occurrence index distributes over append when the suffix has an
occurrence. -/
theorem lastIndexOfAux_append_some (c : Char) (l1 l2 : Str) (j : Nat)
    (h : lastIndexOfAux c l2 = some j) :
    lastIndexOfAux c (l1 ++ l2) = some (l1.length + j) := by
  induction l1 with
  | nil => simpa using h
  | cons x rest ih =>
    show lastIndexOfAux c (x :: (rest ++ l2)) = _
    rw [lastIndexOfAux, ih]
    simp
    omega

theorem lastIndexOfAux_none_of_not_mem (c : Char) (l : Str) (h : c ∉ l) :
    lastIndexOfAux c l = none := by
  induction l with
  | nil => rfl
  | cons x rest ih =>
    rw [lastIndexOfAux, ih (fun hm => h (List.mem_cons_of_mem x hm)),
        if_neg (fun he => h (by rw [← he]; exact List.mem_cons_self x rest))]

/-- The bounded repair truncates a well-formed object followed by brace-free
trailing garbage back to the object. -/
theorem cleanJsonString_discards_garbage (q garbage : Str) (hq : q ≠ [])
    (hhead : q.headD ' ' = openBrace) (hg : closeBrace ∉ garbage) :
    cleanJsonString (q ++ closeBrace :: garbage) = q ++ [closeBrace] := by
  have h2 : lastIndexOfAux closeBrace (closeBrace :: garbage) = some 0 := by
    rw [lastIndexOfAux, lastIndexOfAux_none_of_not_mem closeBrace garbage hg, if_pos rfl]
  have h3 : lastIndexOfAux closeBrace (q ++ closeBrace :: garbage) = some q.length := by
    simpa using lastIndexOfAux_append_some closeBrace q _ 0 h2
  have hql : 1 ≤ q.length := by
    cases q with
    | nil => exact absurd rfl hq
    | cons a b => simp
  have hidx : lastIndexOfChar closeBrace (q ++ closeBrace :: garbage) = (q.length : Int) := by
    rw [lastIndexOfChar, h3]
  have htake : (q ++ closeBrace :: garbage).take (q.length + 1) = q ++ [closeBrace] := by
    have : q ++ closeBrace :: garbage = (q ++ [closeBrace]) ++ garbage := by simp
    rw [this, List.take_append_eq_append_take]
    have hlen : (q ++ [closeBrace]).length = q.length + 1 := by simp
    rw [List.take_of_length_le (le_of_eq hlen), hlen]
    simp
  have htrunc : truncateLastBrace (q ++ closeBrace :: garbage) = q ++ [closeBrace] := by
    unfold truncateLastBrace
    rw [hidx]
    rw [if_pos (by exact_mod_cast hql)]
    rw [Int.toNat_ofNat, htake]
  unfold cleanJsonString
  rw [htrunc]
  rw [if_neg]
  push_neg
  constructor
  · simp
    omega
  · cases q with
    | nil => exact absurd rfl hq
    | cons a b =>
      simpa using hhead

/-! Claims about the specification -/

/-- C4: the identifier resolver maps "ipfs://bafy123" to "bafy123", maps the
gateway URL "https://gateway.pinata.cloud/ipfs/bafy123/extra" to "bafy123"
(stripping the trailing sub-path), and fails ("") on
"https://example.com/foo"; in the failure case the caller processIPFSURI
issues no fetch trigger and touches no stored record. -/
theorem C4_resolver_rules :
    extractIPFSHash (str ("ipfs://bafy123")) = str ("bafy123")
    ∧ extractIPFSHash (str ("https://gateway.pinata.cloud/ipfs/bafy123/extra")) = str ("bafy123")
    ∧ extractIPFSHash (str ("https://example.com/foo")) = []
    ∧ ∀ post sys,
        ((processIPFSURI post (str ("https://example.com/foo")) sys).2).triggers = sys.triggers
        ∧ ((processIPFSURI post (str ("https://example.com/foo")) sys).2).store = sys.store := by
  refine ⟨by decide, by decide, by decide, ?_⟩
  intro post sys
  rw [processIPFSURI_invalid post _ sys (by decide)]
  exact ⟨rfl, rfl⟩

/-- C7 counterexample: requesting gateway index 7 does not return the same
URL as index 3 — the source resets any index at or above the list length to
index 0, so index 7 yields the first gateway and index 3 the fourth. -/
theorem C7_counterexample :
    buildIPFSURL (str ("bafy")) 7 ≠ buildIPFSURL (str ("bafy")) 3
    ∧ buildIPFSURL (str ("bafy")) 7 = some (str ("https://ipfs.io/ipfs/bafy"))
    ∧ buildIPFSURL (str ("bafy")) 3 = some (str ("https://dweb.link/ipfs/bafy")) := by
  refine ⟨by decide, by decide, by decide⟩

/-- C7 (amended): requesting gateway index 7 against the 4-entry list
returns, without error, the same URL as index 0 — out-of-range indices are
reset to the first entry, not reduced modulo the length. -/
theorem C7_wraparound_to_first (hash : Str) :
    buildIPFSURL hash 7 = buildIPFSURL hash 0
    ∧ buildIPFSURL hash 7 = some (str ("https://ipfs.io/ipfs/") ++ hash) := by
  exact ⟨rfl, rfl⟩

/-- C8 counterexample: an index below zero does not return a gateway URL —
the source only guards the upper bound, so a negative index reaches the
bounds-checked array access and traps (modelled as none). -/
theorem C8_counterexample : buildIPFSURL (str ("bafy")) (-1) = none := by
  decide

/-- C8 (amended): for every identifier and every non-negative index,
including indices at or above the list length, buildIPFSURL returns a
gateway URL without error, and indices at or above the length wrap to the
first entry; indices below zero are not guarded. -/
theorem C8_nonneg_index_safe (hash : Str) (idx : Int) (h : 0 ≤ idx) :
    (∃ u, buildIPFSURL hash idx = some u)
    ∧ ((IPFS_GATEWAYS.length : Int) ≤ idx → buildIPFSURL hash idx = buildIPFSURL hash 0) := by
  obtain ⟨n, rfl⟩ := Int.eq_ofNat_of_zero_le h
  by_cases h4 : (IPFS_GATEWAYS.length : Int) ≤ (n : Int)
  · constructor
    · refine ⟨str ("https://ipfs.io/ipfs/") ++ hash, ?_⟩
      unfold buildIPFSURL
      rw [if_pos h4]
      rfl
    · intro _
      unfold buildIPFSURL
      rw [if_pos h4]
      rfl
  · have hn : n < 4 := by
      simp only [IPFS_GATEWAYS, List.length] at h4
      omega
    constructor
    · unfold buildIPFSURL
      rw [if_neg h4]
      interval_cases n <;> exact ⟨_, rfl⟩
    · intro hc
      exact absurd hc h4

/-- C8 witness: the amended theorem applied at hash "h" and index 9. -/
theorem C8_nonneg_index_safe_witness :
    buildIPFSURL (str ("h")) 9 = buildIPFSURL (str ("h")) 0 :=
  (C8_nonneg_index_safe (str ("h")) 9 (by decide)).2 (by decide)

/-- C10 counterexample: a URI that contains "/ipfs/" and does not begin
with "https://" can still resolve to a non-empty identifier — the
"ipfs://" scheme branch fires first. -/
theorem C10_counterexample :
    includes (str ("ipfs:///ipfs/abc")) (str ("/ipfs/")) = true
    ∧ strStartsWith (str ("ipfs:///ipfs/abc")) (str ("https://")) = false
    ∧ extractIPFSHash (str ("ipfs:///ipfs/abc")) ≠ [] := by
  refine ⟨by decide, by decide, by decide⟩

/-- C10 (amended): gateway-URL recognition requires the https scheme — every
URI that begins neither with "ipfs://" nor with "https://" (in particular an
"http://" gateway URL containing "/ipfs/") resolves to the empty string, and
the caller issues no fetch trigger for it. -/
theorem C10_requires_https (uri : Str)
    (h1 : strStartsWith uri (str ("ipfs://")) = false)
    (h2 : strStartsWith uri (str ("https://")) = false) :
    extractIPFSHash uri = []
    ∧ ∀ post sys, ((processIPFSURI post uri sys).2).triggers = sys.triggers := by
  have he : extractIPFSHash uri = [] := by
    unfold extractIPFSHash
    rw [h1, h2]
    simp
  refine ⟨he, ?_⟩
  intro post sys
  rw [processIPFSURI_invalid post uri sys he]

/-- C10 witness: the amended theorem applied to an http gateway URL. -/
theorem C10_requires_https_witness :
    extractIPFSHash (str ("http://gateway.pinata.cloud/ipfs/bafy")) = []
    ∧ ((processIPFSURI { id := str ("p") } (str ("http://gateway.pinata.cloud/ipfs/bafy"))
          emptySys).2).triggers = [] := by
  have h := C10_requires_https (str ("http://gateway.pinata.cloud/ipfs/bafy"))
    (by decide) (by decide)
  exact ⟨h.1, (h.2 { id := str ("p") } emptySys).trans rfl⟩

/-- C3 counterexample: the input "not json at all" is not classified raw
with the literal payload stored — the bounded repair replaces it with the
empty-object string, which parses, so it is classified structured
("application/json") with the repaired payload and no extracted fields. -/
theorem C3_counterexample :
    (parseMetadata (freshIPFSContent (str ("h")) (str ("o")) (str ("g")))
        (str ("not json at all"))).2 = true
    ∧ (parseMetadata (freshIPFSContent (str ("h")) (str ("o")) (str ("g")))
        (str ("not json at all"))).1.contentType = some (str ("application/json"))
    ∧ (parseMetadata (freshIPFSContent (str ("h")) (str ("o")) (str ("g")))
        (str ("not json at all"))).1.metadata = some (str ("\x7b\x7d"))
    ∧ (parseMetadata (freshIPFSContent (str ("h")) (str ("o")) (str ("g")))
        (str ("not json at all"))).1.parsedData = [] := by
  refine ⟨by decide, by decide, by decide, by decide⟩

/-- C3 (amended): for every payload whose repaired form still fails to parse
as a JSON object, the sanitizer classifies the result raw (text/plain),
stores the literal input payload unmodified, extracts no structured fields,
and returns normally; the example input "not json at all" is not in this
class, because the repair rewrites it to the empty-object string. -/
theorem C3_raw_fallback (c : IPFSContent) (s : Str)
    (h : ∀ fields, parseJson (cleanJsonString s) ≠ some (JSONValue.jobj fields)) :
    parseMetadata c s
      = ({ c with metadata := some s, contentType := some (str ("text/plain")) }, false) := by
  unfold parseMetadata
  cases hp : parseJson (cleanJsonString s) with
  | none => rfl
  | some v =>
    cases v with
    | jobj fields => exact absurd hp (h fields)
    | jnull => rfl
    | jbool b => rfl
    | jnum lit => rfl
    | jstr s2 => rfl
    | jarr xs => rfl

/-- C3 witness: the raw fallback applied to "\x7bnope\x7d", whose repaired
form fails the parse. -/
theorem C3_raw_fallback_witness :
    parseMetadata (freshIPFSContent (str ("h")) (str ("o")) (str ("g"))) (str ("\x7bnope\x7d"))
      = ({ freshIPFSContent (str ("h")) (str ("o")) (str ("g")) with
             metadata := some (str ("\x7bnope\x7d")),
             contentType := some (str ("text/plain")) }, false) := by
  refine C3_raw_fallback _ _ ?_
  intro fields hc
  have hn : parseJson (cleanJsonString (str ("\x7bnope\x7d"))) = none := rfl
  rw [hn] at hc
  exact Option.noConfusion hc

/-- C5: when the initial structural parse would fail, one bounded repair is
applied: the input is truncated at the last closing brace, discarding
trailing garbage (first conjunct, for any object text followed by brace-free
garbage), and re-parsed once; on the example of the spec the repair truncates to
the valid object and the sanitizer classifies it structured with
description "hi" and image "http://x". -/
theorem C5_bounded_repair :
    (∀ q garbage, q ≠ [] → q.headD ' ' = openBrace → closeBrace ∉ garbage →
       cleanJsonString (q ++ closeBrace :: garbage) = q ++ [closeBrace])
    ∧ cleanJsonString (str ("\x7b\"description\":\"hi\",\"image\":\"http://x\"\x7d GARBAGE"))
        = str ("\x7b\"description\":\"hi\",\"image\":\"http://x\"\x7d")
    ∧ (parseMetadata (freshIPFSContent (str ("h")) (str ("o")) (str ("g")))
        (str ("\x7b\"description\":\"hi\",\"image\":\"http://x\"\x7d GARBAGE"))).2 = true
    ∧ (parseMetadata (freshIPFSContent (str ("h")) (str ("o")) (str ("g")))
        (str ("\x7b\"description\":\"hi\",\"image\":\"http://x\"\x7d GARBAGE"))).1.contentType
        = some (str ("application/json"))
    ∧ (parseMetadata (freshIPFSContent (str ("h")) (str ("o")) (str ("g")))
        (str ("\x7b\"description\":\"hi\",\"image\":\"http://x\"\x7d GARBAGE"))).1.parsedData
        = [(str ("description"), str ("hi")), (str ("image"), str ("http://x"))] := by
  refine ⟨cleanJsonString_discards_garbage, by decide, by decide, by decide, by decide⟩

/-- C5 witness: the truncation conjunct applied to a concrete object text
followed by concrete brace-free garbage. -/
theorem C5_bounded_repair_witness :
    cleanJsonString ((openBrace :: str ("\"a\":\"b\"")) ++ closeBrace :: str (" junk"))
      = (openBrace :: str ("\"a\":\"b\"")) ++ [closeBrace] :=
  C5_bounded_repair.1 (openBrace :: str ("\"a\":\"b\"")) (str (" junk"))
    (by decide) (by decide) (by decide)

/-- C6: on a successful structural parse, each output field is set exactly
when the kind of the JSON value matches the expected shape (string for
description, image and external link, array for attributes, string or
object-with-string-uri for content), mismatched kinds being silently
skipped; the nested-object content case extracts the uri sub-field, so
"\x7b\"content\":\x7b\"uri\":\"ipfs://abc\"\x7d\x7d" yields content
"ipfs://abc"; and the name field of the legacy sanitizer is likewise set only
when the value is a string. -/
theorem C6_kind_guarded_extraction :
    (∀ cid fields raw,
       (handlerExtract (newPM cid) fields raw).description
         = (match objGet fields (str ("description")) with
            | some (JSONValue.jstr s) => some s
            | _ => none)
       ∧ (handlerExtract (newPM cid) fields raw).image
         = (match objGet fields (str ("image")) with
            | some (JSONValue.jstr s) => some s
            | _ => none)
       ∧ (handlerExtract (newPM cid) fields raw).externalUrl
         = (match objGet fields (str ("external_url")) with
            | some (JSONValue.jstr s) => some s
            | _ => none)
       ∧ (handlerExtract (newPM cid) fields raw).attributes
         = (match objGet fields (str ("attributes")) with
            | some (JSONValue.jarr xs) => some (jsonToString (JSONValue.jarr xs))
            | _ => none)
       ∧ (handlerExtract (newPM cid) fields raw).content
         = (match objGet fields (str ("content")) with
            | some (JSONValue.jstr s) => some s
            | some (JSONValue.jobj co) =>
              (match objGet co (str ("uri")) with
               | some (JSONValue.jstr u) => some u
               | _ => none)
            | _ => none))
    ∧ (loadPM (handlePostMetadata (str ("cid1"))
          (str ("\x7b\"content\":\x7b\"uri\":\"ipfs://abc\"\x7d\x7d")) emptySys).store
          (str ("cid1"))).map PostMetadata.content = some (some (str ("ipfs://abc")))
    ∧ (∀ ha or ga s fields,
        parseJson (cleanJsonString s) = some (JSONValue.jobj fields) →
        lookupStr ((parseMetadata (freshIPFSContent ha or ga) s).1.parsedData) (str ("name"))
          = (match objGet fields (str ("name")) with
             | some (JSONValue.jstr t) => some t
             | _ => none)) := by
  refine ⟨fun cid fields raw => ⟨rfl, rfl, rfl, rfl, rfl⟩, by decide, ?_⟩
  intro ha or ga s fields hp
  unfold parseMetadata
  rw [hp]
  rw [lookup_extractAttributesField_ne _ _ _ (by decide)]
  rw [lookup_extractStringField_ne _ _ _ _ (by decide)]
  rw [lookup_extractStringField_ne _ _ _ _ (by decide)]
  rw [lookup_extractStringField_ne _ _ _ _ (by decide)]
  rw [lookup_extractStringField_eq]
  cases ho : objGet fields (str ("name")) with
  | none => rfl
  | some v => cases v <;> rfl

/-- C6 witness: the name conjunct applied to a concrete one-field object. -/
theorem C6_kind_guarded_extraction_witness :
    lookupStr ((parseMetadata (freshIPFSContent (str ("h")) (str ("o")) (str ("g")))
        (str ("\x7b\"name\":\"n1\"\x7d"))).1.parsedData) (str ("name"))
      = some (str ("n1")) :=
  (C6_kind_guarded_extraction.2.2 (str ("h")) (str ("o")) (str ("g"))
      (str ("\x7b\"name\":\"n1\"\x7d"))
      [(str ("name"), JSONValue.jstr (str ("n1")))] rfl).trans rfl

/-- C1: for every identifier and every interleaving of ensure/populate
operations, the lifecycle rank of the record (ABSENT < SHELL < POPULATED) never
decreases; once a record is persisted its value never changes under any
later operations; and a second populate for the same identifier is a no-op
on the store — the fields written by the first populate persist. -/
theorem C1_lifecycle_monotone (sys : Sys) (ops : List Op) (cid : Str) :
    lifecycleRank (lifecycleOf sys.store cid)
      ≤ lifecycleRank (lifecycleOf (run sys ops).store cid)
    ∧ (∀ m, loadPM sys.store cid = some m → loadPM (run sys ops).store cid = some m)
    ∧ ∀ c1 c2,
        loadPM (run sys [Op.populate cid c1, Op.populate cid c2]).store cid
          = loadPM (run sys [Op.populate cid c1]).store cid := by
  refine ⟨?_, fun m hm => loadPM_run_preserve ops sys cid m hm, ?_⟩
  · cases hl : loadPM sys.store cid with
    | none =>
      have ha : lifecycleOf sys.store cid = Lifecycle.ABSENT := by
        unfold lifecycleOf
        rw [hl]
      rw [ha]
      exact Nat.zero_le _
    | some m =>
      have h2 := loadPM_run_preserve ops sys cid m hl
      unfold lifecycleOf
      rw [hl, h2]
  · intro c1 c2
    obtain ⟨r, hr⟩ := handlePM_creates cid c1 sys
    have hs : (handlePostMetadata cid c2 (step sys (Op.populate cid c1))).store
        = (step sys (Op.populate cid c1)).store := by
      rw [handlePM_store]
      rw [show loadPM (step sys (Op.populate cid c1)).store cid = some r from hr]
    show loadPM (handlePostMetadata cid c2 (step sys (Op.populate cid c1))).store cid
      = loadPM (step sys (Op.populate cid c1)).store cid
    rw [hs]

/-- C1 witness: a persisted record survives a later populate and a later
ensure unchanged. -/
theorem C1_lifecycle_monotone_witness :
    loadPM (run { store := [(str ("a"), newPM (str ("a")))], triggers := [], warnings := [] }
        [Op.populate (str ("a")) (str ("y")), Op.ensure (str ("p")) (str ("ipfs://a"))]).store
      (str ("a")) = some (newPM (str ("a"))) :=
  (C1_lifecycle_monotone
      { store := [(str ("a"), newPM (str ("a")))], triggers := [], warnings := [] }
      [Op.populate (str ("a")) (str ("y")), Op.ensure (str ("p")) (str ("ipfs://a"))]
      (str ("a"))).2.1 (newPM (str ("a"))) (by decide)

/-- C2 counterexample: the producer path does not create or persist a SHELL
record — after an ensure on the empty system the record for the resolved
identifier is still absent, even though the fetch trigger was issued. -/
theorem C2_counterexample :
    loadPM (run emptySys [Op.ensure (str ("p1")) (str ("ipfs://bafy123"))]).store
        (str ("bafy123")) = none
    ∧ (run emptySys [Op.ensure (str ("p1")) (str ("ipfs://bafy123"))]).triggers
        = [str ("bafy123")] := by
  refine ⟨by decide, by decide⟩

/-- C2 (amended): the producer path never touches the record store (it only
links the post and issues the deduplicated fetch trigger), so it is
trivially idempotent on records; records are created solely by the
fetch-completion path, hence any operation sequence keeps at most one
persisted record per identifier, and exactly one once a populate for that
identifier has run. -/
theorem C2_ensure_creates_no_record :
    (∀ post uri sys, ((processIPFSURI post uri sys).2).store = sys.store)
    ∧ (∀ sys ops cid, countKey sys.store cid ≤ 1 → countKey (run sys ops).store cid ≤ 1)
    ∧ (∀ sys ops cid content, countKey sys.store cid ≤ 1 → Op.populate cid content ∈ ops →
         countKey (run sys ops).store cid = 1) := by
  refine ⟨processIPFSURI_store, fun sys ops cid hle => countKey_run_le ops sys cid hle, ?_⟩
  intro sys ops cid content hle hmem
  obtain ⟨m, hm⟩ := run_populate_mem_presence ops sys cid content hmem
  have h1 := loadPM_some_countKey _ _ _ hm
  have h2 := countKey_run_le ops sys cid hle
  omega

/-- C2 witness: the count conjunct applied to an empty store and a sequence
holding two ensures around one populate. -/
theorem C2_ensure_creates_no_record_witness :
    countKey (run emptySys
        [Op.ensure (str ("p1")) (str ("ipfs://a")),
         Op.populate (str ("a")) (str ("\x7b\x7d")),
         Op.ensure (str ("p2")) (str ("ipfs://a"))]).store (str ("a")) = 1 :=
  C2_ensure_creates_no_record.2.2 emptySys
    [Op.ensure (str ("p1")) (str ("ipfs://a")),
     Op.populate (str ("a")) (str ("\x7b\x7d")),
     Op.ensure (str ("p2")) (str ("ipfs://a"))]
    (str ("a")) (str ("\x7b\x7d")) (by decide) (by decide)

/-- C9 counterexample: populate invoked with the empty identifier is not
reported — it silently creates and persists a record keyed by the empty
identifier, with no warning logged. -/
theorem C9_counterexample :
    loadPM (handlePostMetadata [] (str ("\x7b\x7d")) emptySys).store []
      = some { id := [], contentType := some (str ("application/json")),
               metadata := some (str ("\x7b\x7d")) }
    ∧ (handlePostMetadata [] (str ("\x7b\x7d")) emptySys).warnings = [] := by
  refine ⟨by decide, by decide⟩

/-- C9 (amended): the fetch-completion path performs no identifier
validation — an empty identifier is processed like any other and yields a
persisted record keyed by the empty string, with no warning when its content
is a JSON object; the empty/malformed-identifier rejection lives in the
producer path, where an unresolvable URI is reported with a warning and no
fetch trigger. -/
theorem C9_validation_in_producer_path :
    (∀ post uri sys, extractIPFSHash uri = [] →
       processIPFSURI post uri sys
         = (post, { sys with warnings := sys.warnings ++ [str ("Invalid IPFS URI for post")] }))
    ∧ (∀ content sys, ∃ r, loadPM (handlePostMetadata [] content sys).store [] = some r)
    ∧ (∀ content sys fields, loadPM sys.store [] = none →
        parseJson content = some (JSONValue.jobj fields) →
        (handlePostMetadata [] content sys).warnings = sys.warnings) := by
  refine ⟨processIPFSURI_invalid, fun content sys => handlePM_creates [] content sys, ?_⟩
  intro content sys fields h0 hp
  exact handlePM_new_json_warnings [] content sys fields h0 hp

/-- C9 witness: the producer-path report on an unresolvable URI and the
silent empty-identifier populate, at concrete inputs. -/
theorem C9_validation_in_producer_path_witness :
    processIPFSURI { id := str ("p") } (str ("https://example.com/foo")) emptySys
      = ({ id := str ("p") }, { emptySys with warnings := [str ("Invalid IPFS URI for post")] })
    ∧ (handlePostMetadata [] (str ("\x7b\x7d")) emptySys).warnings = [] := by
  constructor
  · exact (C9_validation_in_producer_path.1 { id := str ("p") }
      (str ("https://example.com/foo")) emptySys (by decide)).trans rfl
  · exact (C9_validation_in_producer_path.2.2 (str ("\x7b\x7d")) emptySys [] rfl rfl).trans rfl

end ZoraSubgraph
